import Mathlib

/-! Verification of the branch-list state machine of git-checkoutui
(`src/main.rs`): the `App` cursor/selection model, the key-event dispatch,
the `git for-each-ref` output parser with its stable descending sort, and
the error-handling structure of the two external-tool invocations, all
shallowly embedded as executable Lean definitions. -/

namespace GitCheckoutUI

/-! ## Machine-integer model

The cursor arithmetic in `src/main.rs` is over `usize`.  We model `usize`
values as `Nat` and make the two spots where Rust semantics differ from
`Nat` explicit: `branches.len() - 1` (which wraps around in release builds
when the listing is empty) and `saturating_add`/`saturating_sub`. -/

def USIZE : Nat := 2 ^ 64

/-- Release-mode (two's-complement wrapping) `usize` subtraction `a - b`,
exact for operands below `2 ^ 64`.  In `src/main.rs` the only subtraction
that can underflow is `self.branches.len() - 1` on an empty listing. -/
def usizeSub (a b : Nat) : Nat := if b ≤ a then a - b else USIZE + a - b

/-- Rust `usize::saturating_add`. -/
def usizeSatAdd (a b : Nat) : Nat := min (a + b) (USIZE - 1)

/-! ## Data model

`BranchInfo` mirrors `struct BranchInfo` in `src/main.rs` field by field;
`last_commit_timestamp` is `i64` in the source and modelled as `Int` (the
parser enforces the `i64` range, see `parseI64`).  `pr_number` is `u32`,
modelled as `Nat`. -/

structure BranchInfo where
  name : String
  tracking_info : String
  last_commit_date : String
  last_commit_timestamp : Int
  has_upstream : Bool
  pr_number : Option Nat
  is_current : Bool
  deriving Repr, DecidableEq

/-- `struct App` from `src/main.rs`.  `ratatui`'s `ListState` is modelled by
its `selected` component only (its scroll offset is consumed by the
rendering layer, which is outside the model). -/
structure App where
  branches : List BranchInfo
  selected : Option Nat
  should_quit : Bool
  last_checked_out_branch : Option String
  page_size : Nat
  deriving Repr, DecidableEq

/-- `App::new`: `ListState::default()` has no selection. -/
def App.new (branches : List BranchInfo) (page_size : Nat) : App :=
  { branches := branches
    selected := none
    should_quit := false
    last_checked_out_branch := none
    page_size := page_size }

/-- `App::next` (`src/main.rs:52-64`): advance the cursor by one, moving to
`0` from the last index or from an unset cursor. -/
def App.next (app : App) : App :=
  let i :=
    match app.selected with
    | some i => if usizeSub app.branches.length 1 ≤ i then 0 else i + 1
    | none => 0
  { app with selected := some i }

/-- `App::previous` (`src/main.rs:66-78`): retreat the cursor by one,
moving to `len - 1` from index `0`, and to `0` from an unset cursor. -/
def App.previous (app : App) : App :=
  let i :=
    match app.selected with
    | some i => if i = 0 then usizeSub app.branches.length 1 else i - 1
    | none => 0
  { app with selected := some i }

/-- `App::quit` (`src/main.rs:80-82`). -/
def App.quit (app : App) : App :=
  { app with should_quit := true }

/-- `App::next_page` (`src/main.rs:84-92`):
`i.saturating_add(page_size).min(branches.len() - 1)`, or `0` from an
unset cursor. -/
def App.next_page (app : App) : App :=
  let i :=
    match app.selected with
    | some i => min (usizeSatAdd i app.page_size) (usizeSub app.branches.length 1)
    | none => 0
  { app with selected := some i }

/-- `App::prev_page` (`src/main.rs:94-100`): `i.saturating_sub(page_size)`
(`Nat` subtraction is exactly saturating), or `0` from an unset cursor. -/
def App.prev_page (app : App) : App :=
  let i :=
    match app.selected with
    | some i => i - app.page_size
    | none => 0
  { app with selected := some i }

/-- The `KeyCode::Enter` arm of `handle_events` (`src/main.rs:266-271`): if
a cursor is set, copy `branches[selected].name` into
`last_checked_out_branch`, then quit.  The Rust indexing `branches[selected]`
panics when `selected` is out of bounds; the panic is modelled by `none`. -/
def App.confirm (app : App) : Option App :=
  match app.selected with
  | some i =>
      match app.branches[i]? with
      | some b => some ({ app with last_checked_out_branch := some b.name }.quit)
      | none => none
  | none => some app.quit

/-- The model operations dispatched by `handle_events`
(`src/main.rs:257-276`). -/
inductive Op where
  | next
  | previous
  | next_page
  | prev_page
  | quit
  | confirm
  deriving Repr, DecidableEq

/-- One dispatch step; `none` models a panic (only `confirm` can panic). -/
def step (app : App) : Op → Option App
  | .next => some app.next
  | .previous => some app.previous
  | .next_page => some app.next_page
  | .prev_page => some app.prev_page
  | .quit => some app.quit
  | .confirm => app.confirm

/-- A sequence of dispatched operations. -/
def applyOps (app : App) : List Op → Option App
  | [] => some app
  | op :: ops => (step app op).bind fun a => applyOps a ops

/-- The initial selection set up in `main` (`src/main.rs:125-135`): the
index of the current branch, else `0` for a non-empty listing, else no
selection. -/
def initialApp (branches : List BranchInfo) (page_size : Nat) : App :=
  let app := App.new branches page_size
  let initial_selection :=
    (branches.findIdx? (fun b => b.is_current)).orElse fun _ =>
      if branches.isEmpty then none else some 0
  match initial_selection with
  | some selected_index => { app with selected := some selected_index }
  | none => app

/-! ## BranchDataSource: parsing and sorting

`get_branch_info` (`src/main.rs:190-247`) splits each stdout line of
`git for-each-ref` on `"|"`, keeps exactly the lines with six fields, and
stable-sorts the records by `last_commit_timestamp` descending.  The pure
core below takes the PR lookup and the list of output lines as inputs. -/

def I64_MIN : Int := -(2 ^ 63)

def I64_MAX : Int := 2 ^ 63 - 1

/-- Digit run of Rust's integer `FromStr`: one or more ASCII digits. -/
def digitRunToNat (cs : List Char) : Option Nat :=
  if cs.isEmpty then none
  else if cs.all Char.isDigit then
    some (cs.foldl (fun a c => a * 10 + (c.toNat - 48)) 0)
  else none

/-- Rust `str::parse::<i64>`: an optional single `+`/`-` sign, then one or
more ASCII digits, value within the `i64` range; anything else (empty
string, stray characters, whitespace, overflow) fails. -/
def parseI64 (s : String) : Option Int :=
  match s.toList with
  | [] => none
  | c :: rest =>
    let signed : Bool × List Char :=
      if c = '-' then (true, rest)
      else if c = '+' then (false, rest)
      else (false, c :: rest)
    match digitRunToNat signed.2 with
    | none => none
    | some n =>
      let v : Int := if signed.1 then -(n : Int) else (n : Int)
      if I64_MIN ≤ v ∧ v ≤ I64_MAX then some v else none

/-- Split a character list on a single delimiter character.  Models Rust
`str::split` with the one-character separator patterns used in the source
(`"|"` for fields, `'\n'` inside `str::lines`): the result always has one
more piece than there are delimiter occurrences, so an input without the
delimiter gives one piece and an empty input gives `[[]]`. -/
def splitChar (d : Char) : List Char → List (List Char)
  | [] => [[]]
  | c :: cs =>
    match splitChar d cs with
    | [] => [[]]
    | h :: t => if c = d then [] :: h :: t else (c :: h) :: t

/-- `str::split` on a one-character separator, on `String`. -/
def splitOnChar (d : Char) (s : String) : List String :=
  (splitChar d s.toList).map List.asString

/-- Rust `str::trim` (over the ASCII content the source feeds it): drop
leading and trailing whitespace characters. -/
def trimChars (cs : List Char) : List Char :=
  ((cs.dropWhile Char.isWhitespace).reverse.dropWhile Char.isWhitespace).reverse

/-- Rust `str::lines`: split on `'\n'`, do not yield a final empty piece
after a trailing newline, and strip one trailing `'\r'` from each line. -/
def rustLines (s : String) : List String :=
  let raw := splitOnChar '\n' s
  let raw := if raw.getLast? = some "" then raw.dropLast else raw
  raw.map fun l =>
    match l.toList.getLast? with
    | some c => if c = '\r' then l.toList.dropLast.asString else l
    | none => l

/-- The field separator `DELIMITER` of `src/main.rs:192` (`"|"`, a single
character). -/
def DELIMITER : Char := '|'

/-- The closure of the `filter_map` in `get_branch_info`
(`src/main.rs:219-240`): split the line on `DELIMITER`; exactly six parts
yield one record, any other count yields nothing.  `pr_map` is the
`HashMap::get` lookup by exact branch name. -/
def parseLine (pr_map : String → Option Nat) (line : String) :
    Option BranchInfo :=
  match splitOnChar DELIMITER line with
  | [p0, p1, p2, p3, p4, p5] =>
      some
        { name := p1
          tracking_info := p2
          last_commit_date := p3
          last_commit_timestamp := (parseI64 p4).getD 0
          has_upstream := !(trimChars p5.toList).isEmpty
          pr_number := pr_map p1
          is_current := !(trimChars p0.toList).isEmpty }
  | _ => none

/-- The comparator of `branches.sort_by` (`src/main.rs:244`):
`b.last_commit_timestamp.cmp(&a.last_commit_timestamp)`, i.e. newest
first. -/
def branchLe (a b : BranchInfo) : Bool :=
  decide (b.last_commit_timestamp ≤ a.last_commit_timestamp)

/-- The pure core of `get_branch_info` (`src/main.rs:216-246`): parse every
line, then stable-sort descending by timestamp.  Rust's `sort_by` is a
stable sort, as is `List.mergeSort`; a stable sort under a total
transitive comparator is unique, so this is exact. -/
def get_branch_info_core (pr_map : String → Option Nat)
    (lines : List String) : List BranchInfo :=
  (lines.filterMap (parseLine pr_map)).mergeSort branchLe

/-! ## External processes

A spawned process either fails to start (`std::process::Command::output`
returns `Err`, e.g. the binary is not installed), modelled as `none`, or
yields an exit status plus captured output, modelled as `CmdOutput`. -/

structure CmdOutput where
  success : Bool
  stdout : String
  stderr : String
  deriving Repr, DecidableEq

/-- `struct PullRequest` from `src/main.rs:16-21` (`number` is `u32`). -/
structure PullRequest where
  headRefName : String
  number : Nat
  deriving Repr, DecidableEq

/-- Outcomes of the two `gh` invocations made by `get_pr_map`. -/
structure PrEnv where
  ghVersion : Option CmdOutput
  ghPrList : Option CmdOutput
  deriving Repr, DecidableEq

/-- `get_pr_map` (`src/main.rs:155-188`).  `parsePrs` abstracts
`serde_json::from_slice::<Vec<PullRequest>>` (an external library);
`none` is a parse failure.  `gh` missing, `gh pr list` exiting non-zero,
and unparsable JSON all yield `Ok` of an empty map; only a spawn failure
of `gh pr list` itself propagates through the `?` operator as an error. -/
def get_pr_map (parsePrs : String → Option (List PullRequest))
    (env : PrEnv) : Except String (List (String × Nat)) :=
  match env.ghVersion with
  | none => .ok []
  | some _ =>
    match env.ghPrList with
    | none => .error "spawn failure"
    | some out =>
      if !out.success then .ok []
      else
        match parsePrs out.stdout with
        | none => .ok []
        | some prs => .ok (prs.map fun pr => (pr.headRefName, pr.number))

/-- The PR map as observed by `get_branch_info` (`src/main.rs:191`):
`get_pr_map().unwrap_or_default()`. -/
def pr_map_observed (parsePrs : String → Option (List PullRequest))
    (env : PrEnv) : List (String × Nat) :=
  match get_pr_map parsePrs env with
  | .ok m => m
  | .error _ => []

/-- `get_branch_info` (`src/main.rs:190-247`) given the outcome `gitOut` of
the spawned `git for-each-ref` process: non-zero exit fails with the
captured standard-error text, otherwise the stdout lines are parsed and
sorted. -/
def get_branch_info (parsePrs : String → Option (List PullRequest))
    (prEnv : PrEnv) (gitOut : CmdOutput) :
    Except String (List BranchInfo) :=
  let pr_map := pr_map_observed parsePrs prEnv
  if gitOut.success then
    .ok (get_branch_info_core
      (fun nm => pr_map.reverse.lookup nm) (rustLines gitOut.stdout))
  else
    .error gitOut.stderr

/-! ## Concrete instances used to instantiate the theorems -/

/-- A sample record (the `main` line of the worked example in the spec). -/
def sampleBranchA : BranchInfo :=
  { name := "main"
    tracking_info := "gone"
    last_commit_date := "2 days ago"
    last_commit_timestamp := 1000
    has_upstream := false
    pr_number := none
    is_current := false }

/-- A sample record (the `feature` line of the worked example). -/
def sampleBranchB : BranchInfo :=
  { name := "feature"
    tracking_info := "ahead 1"
    last_commit_date := "1 hour ago"
    last_commit_timestamp := 2000
    has_upstream := true
    pr_number := some 42
    is_current := true }

/-- A third sample record. -/
def sampleBranchC : BranchInfo :=
  { name := "dev"
    tracking_info := ""
    last_commit_date := "3 days ago"
    last_commit_timestamp := 500
    has_upstream := false
    pr_number := none
    is_current := false }

/-- A three-branch model state with page size `5` and the cursor at `0`. -/
def pagingApp : App :=
  { App.new [sampleBranchA, sampleBranchB, sampleBranchC] 5 with
      selected := some 0 }

/-- A two-branch model state with the cursor at index `1`. -/
def twoBranchApp : App :=
  { App.new [sampleBranchA, sampleBranchB] 5 with selected := some 1 }

/-- The cursor invariant of C10: the branch listing never changes and the
selected index stays within bounds. -/
def cursorInv (bs : List BranchInfo) (app : App) : Prop :=
  app.branches = bs ∧ ∃ i, app.selected = some i ∧ i < bs.length

/-! ## Helper lemmas about the cursor arithmetic -/

lemma usizeSub_one (len : Nat) (h : 0 < len) : usizeSub len 1 = len - 1 := by
  unfold usizeSub
  rw [if_pos (by omega)]

@[simp] lemma next_branches (app : App) : app.next.branches = app.branches := rfl

@[simp] lemma previous_branches (app : App) :
    app.previous.branches = app.branches := rfl

@[simp] lemma next_page_branches (app : App) :
    app.next_page.branches = app.branches := rfl

@[simp] lemma prev_page_branches (app : App) :
    app.prev_page.branches = app.branches := rfl

@[simp] lemma quit_branches (app : App) : app.quit.branches = app.branches := rfl

@[simp] lemma quit_selected (app : App) : app.quit.selected = app.selected := rfl

lemma nextIdx_mod (len i : Nat) (hi : i < len) :
    (if usizeSub len 1 ≤ i then 0 else i + 1) = (i + 1) % len := by
  rw [usizeSub_one len (by omega)]
  by_cases h : len - 1 ≤ i
  · have heq : i + 1 = len := by omega
    rw [if_pos h, heq, Nat.mod_self]
  · rw [if_neg h, Nat.mod_eq_of_lt (by omega)]

lemma prevIdx_mod (len i : Nat) (hi : i < len) :
    (if i = 0 then usizeSub len 1 else i - 1) = (i + (len - 1)) % len := by
  rw [usizeSub_one len (by omega)]
  by_cases h : i = 0
  · subst h
    rw [if_pos rfl, Nat.zero_add, Nat.mod_eq_of_lt (by omega)]
  · rw [if_neg h]
    have heq : i + (len - 1) = len + (i - 1) := by omega
    rw [heq, Nat.add_mod_left, Nat.mod_eq_of_lt (by omega)]

lemma next_selected (app : App) (i : Nat) (h : app.selected = some i) :
    app.next.selected =
      some (if usizeSub app.branches.length 1 ≤ i then 0 else i + 1) := by
  simp [App.next, h]

lemma previous_selected (app : App) (i : Nat) (h : app.selected = some i) :
    app.previous.selected =
      some (if i = 0 then usizeSub app.branches.length 1 else i - 1) := by
  simp [App.previous, h]

lemma next_page_selected (app : App) (i : Nat) (h : app.selected = some i) :
    app.next_page.selected =
      some (min (usizeSatAdd i app.page_size)
        (usizeSub app.branches.length 1)) := by
  simp [App.next_page, h]

lemma prev_page_selected (app : App) (i : Nat) (h : app.selected = some i) :
    app.prev_page.selected = some (i - app.page_size) := by
  simp [App.prev_page, h]

lemma next_iterate (app : App) (i : Nat) (h : app.selected = some i)
    (hi : i < app.branches.length) (k : Nat) :
    (App.next^[k] app).branches = app.branches ∧
    (App.next^[k] app).selected = some ((i + k) % app.branches.length) := by
  induction k with
  | zero =>
      simpa [Nat.mod_eq_of_lt hi] using h
  | succ k ih =>
      obtain ⟨hb, hs⟩ := ih
      rw [Function.iterate_succ_apply']
      refine ⟨by rw [next_branches, hb], ?_⟩
      rw [next_selected _ _ hs, hb, nextIdx_mod _ _
        (Nat.mod_lt _ (by omega)), Nat.mod_add_mod, Nat.add_assoc]

lemma prev_iterate (app : App) (i : Nat) (h : app.selected = some i)
    (hi : i < app.branches.length) (k : Nat) :
    (App.previous^[k] app).branches = app.branches ∧
    (App.previous^[k] app).selected =
      some ((i + k * (app.branches.length - 1)) % app.branches.length) := by
  induction k with
  | zero =>
      simpa [Nat.mod_eq_of_lt hi] using h
  | succ k ih =>
      obtain ⟨hb, hs⟩ := ih
      rw [Function.iterate_succ_apply']
      refine ⟨by rw [previous_branches, hb], ?_⟩
      rw [previous_selected _ _ hs, hb, prevIdx_mod _ _
        (Nat.mod_lt _ (by omega)), Nat.mod_add_mod]
      congr 1
      ring_nf

/-! ## Claims about the BranchListModel -/

/-- C1 (amended): on an empty `BranchListing` with the cursor unset, each
navigation operation is not a no-op — it sets the cursor to `Some 0`,
leaving every other component of the model state unchanged. -/
theorem empty_nav_sets_cursor (app : App) (_hb : app.branches = [])
    (hs : app.selected = none) :
    app.next = { app with selected := some 0 } ∧
    app.previous = { app with selected := some 0 } ∧
    app.next_page = { app with selected := some 0 } ∧
    app.prev_page = { app with selected := some 0 } := by
  refine ⟨?_, ?_, ?_, ?_⟩ <;>
    simp [App.next, App.previous, App.next_page, App.prev_page, hs]

/-- Witness for C1 (amended) at the concrete empty model. -/
theorem empty_nav_sets_cursor_witness :
    (App.new [] 5).next = { App.new [] 5 with selected := some 0 } ∧
    (App.new [] 5).previous = { App.new [] 5 with selected := some 0 } ∧
    (App.new [] 5).next_page = { App.new [] 5 with selected := some 0 } ∧
    (App.new [] 5).prev_page = { App.new [] 5 with selected := some 0 } :=
  empty_nav_sets_cursor (App.new [] 5) rfl rfl

/-- Counterexample to C1 as stated: on the empty listing none of the four
navigation operations leaves the model state unchanged. -/
theorem empty_nav_not_noop :
    (App.new [] 5).next ≠ App.new [] 5 ∧
    (App.new [] 5).previous ≠ App.new [] 5 ∧
    (App.new [] 5).next_page ≠ App.new [] 5 ∧
    (App.new [] 5).prev_page ≠ App.new [] 5 := by
  decide

/-- C2: `confirm` on the untouched empty model quits without a confirmed
branch, but after a single preceding `move_next` on the empty listing the
cursor is `Some 0` and `confirm` evaluates `branches[0]` on an empty
vector — the out-of-bounds panic modelled by `none`. -/
theorem confirm_empty_after_nav_panics :
    (App.new [] 5).confirm = some { App.new [] 5 with should_quit := true } ∧
    ((App.new [] 5).next).confirm = none := by
  decide

/-- C3: for a non-empty listing and a cursor on a valid index, `next`
iterated `len` times returns the cursor to its starting index, and so
does `previous`. -/
theorem next_previous_cyclic (app : App) (i : Nat)
    (_hlen : 0 < app.branches.length) (h : app.selected = some i)
    (hi : i < app.branches.length) :
    (App.next^[app.branches.length] app).selected = some i ∧
    (App.previous^[app.branches.length] app).selected = some i := by
  constructor
  · rw [(next_iterate app i h hi app.branches.length).2, Nat.add_mod_right,
      Nat.mod_eq_of_lt hi]
  · rw [(prev_iterate app i h hi app.branches.length).2,
      Nat.add_mul_mod_self_left, Nat.mod_eq_of_lt hi]

/-- Witness for C3 on a concrete two-branch listing with the cursor at
index `1`. -/
theorem next_previous_cyclic_witness :
    (App.next^[2] twoBranchApp).selected = some 1 ∧
    (App.previous^[2] twoBranchApp).selected = some 1 :=
  next_previous_cyclic twoBranchApp 1 (by decide) rfl (by decide)

/-- C4 (amended): on a non-empty listing `next_page` always lands strictly
below `len`; `prev_page` saturates at `0` and never moves the cursor past
its old position; and the worked example (page size `5`, length `3`,
cursor `0`) pages forward to index `2`. -/
theorem paging_saturates :
    (∀ app : App, 0 < app.page_size → 0 < app.branches.length →
        ∃ j, app.next_page.selected = some j ∧ j < app.branches.length) ∧
    (∀ app : App, 0 < app.page_size →
        ∃ j, app.prev_page.selected = some j ∧ j ≤ app.selected.getD 0) ∧
    (∀ app : App, app.page_size = 5 → app.branches.length = 3 →
        app.selected = some 0 → app.next_page.selected = some 2) := by
  refine ⟨?_, ?_, ?_⟩
  · intro app _hp hlen
    rcases h : app.selected with _ | i
    · exact ⟨0, by simp [App.next_page, h], hlen⟩
    · refine ⟨min (usizeSatAdd i app.page_size) (usizeSub app.branches.length 1),
        next_page_selected app i h, ?_⟩
      rw [usizeSub_one _ hlen]
      have hm := Nat.min_le_right (usizeSatAdd i app.page_size)
        (app.branches.length - 1)
      omega
  · intro app _hp
    rcases h : app.selected with _ | i
    · exact ⟨0, by simp [App.prev_page, h], by simp [h]⟩
    · exact ⟨i - app.page_size, prev_page_selected app i h,
        by simp [h, Nat.sub_le]⟩
  · intro app hp hlen h0
    rw [next_page_selected app 0 h0, hp, hlen]
    decide

/-- Counterexample to C4 as stated: on the empty listing, `page_forward`
with the cursor unset produces cursor index `0`, which is not below the
listing length `0`. -/
theorem page_forward_empty_out_of_range :
    (App.new [] 5).next_page.selected = some 0 ∧
    (App.new [] 5).branches.length ≤ 0 := by
  decide

/-- Witness for C4 (amended) on the three-branch model of the worked
example. -/
theorem paging_saturates_witness :
    (∃ j, pagingApp.next_page.selected = some j ∧
        j < pagingApp.branches.length) ∧
    (∃ j, pagingApp.prev_page.selected = some j ∧
        j ≤ pagingApp.selected.getD 0) ∧
    pagingApp.next_page.selected = some 2 :=
  ⟨paging_saturates.1 pagingApp (by decide) (by decide),
   paging_saturates.2.1 pagingApp (by decide),
   paging_saturates.2.2 pagingApp (by decide) (by decide) (by decide)⟩

/-! ## The C10 invariant -/

lemma step_preserves (bs : List BranchInfo) (hlen : 0 < bs.length)
    (app : App) (hinv : cursorInv bs app) (op : Op) :
    ∃ app', step app op = some app' ∧ cursorInv bs app' := by
  obtain ⟨hb, i, hs, hi⟩ := hinv
  have hb' : app.branches.length = bs.length := by rw [hb]
  cases op
  case next =>
    refine ⟨app.next, rfl, by rw [next_branches, hb], ?_⟩
    refine ⟨_, next_selected _ _ hs, ?_⟩
    by_cases hcase : usizeSub app.branches.length 1 ≤ i
    · rw [if_pos hcase]; omega
    · rw [if_neg hcase]
      rw [usizeSub_one _ (by omega)] at hcase
      omega
  case previous =>
    refine ⟨app.previous, rfl, by rw [previous_branches, hb], ?_⟩
    refine ⟨_, previous_selected _ _ hs, ?_⟩
    by_cases hcase : i = 0
    · rw [if_pos hcase, usizeSub_one _ (by omega)]; omega
    · rw [if_neg hcase]; omega
  case next_page =>
    refine ⟨app.next_page, rfl, by rw [next_page_branches, hb], ?_⟩
    refine ⟨_, next_page_selected _ _ hs, ?_⟩
    rw [usizeSub_one _ (by omega)]
    have hm := Nat.min_le_right (usizeSatAdd i app.page_size)
      (app.branches.length - 1)
    omega
  case prev_page =>
    refine ⟨app.prev_page, rfl, by rw [prev_page_branches, hb], ?_⟩
    exact ⟨_, prev_page_selected _ _ hs, by omega⟩
  case quit =>
    exact ⟨app.quit, rfl, by rw [quit_branches, hb], i,
      by rw [quit_selected]; exact hs, hi⟩
  case confirm =>
    have hglt : i < app.branches.length := by omega
    refine ⟨App.quit
      { app with last_checked_out_branch := some ((app.branches.get ⟨i, hglt⟩).name) },
      ?_, hb, i, hs, hi⟩
    simp [step, App.confirm, hs, List.getElem?_eq_getElem hglt]

lemma applyOps_preserves (bs : List BranchInfo) (hlen : 0 < bs.length)
    (ops : List Op) : ∀ app : App, cursorInv bs app →
    ∃ app', applyOps app ops = some app' ∧ cursorInv bs app' := by
  induction ops with
  | nil => exact fun app h => ⟨app, rfl, h⟩
  | cons op ops ih =>
      intro app h
      obtain ⟨a1, hstep, hinv1⟩ := step_preserves bs hlen app h op
      obtain ⟨a2, happ, hinv2⟩ := ih a1 hinv1
      exact ⟨a2, by simp [applyOps, hstep, happ], hinv2⟩

lemma initialApp_inv (bs : List BranchInfo) (ps : Nat) (hlen : 0 < bs.length) :
    cursorInv bs (initialApp bs ps) := by
  rcases hf : bs.findIdx? (fun b => b.is_current) with _ | j
  · have hne : bs.isEmpty = false := by
      cases bs
      · simp at hlen
      · rfl
    exact ⟨by simp [initialApp, hf, hne, App.new],
      0, by simp [initialApp, hf, hne, App.new], hlen⟩
  · have hj : j < bs.length := (List.findIdx?_eq_some_iff_findIdx_eq.mp hf).1
    exact ⟨by simp [initialApp, hf, App.new],
      j, by simp [initialApp, hf, App.new], hj⟩

/-- C10: once set, the cursor never becomes unset again under any dispatched
operation; and from the initial state on a non-empty listing every sequence
of operations completes without a panic and keeps the cursor on an index
within `[0, len - 1]`. -/
theorem cursor_stays_set_and_in_range :
    (∀ (app app' : App) (op : Op), step app op = some app' →
        app.selected.isSome = true → app'.selected.isSome = true) ∧
    (∀ (bs : List BranchInfo) (ps : Nat) (ops : List Op), 0 < bs.length →
        ∃ app', applyOps (initialApp bs ps) ops = some app' ∧
          ∃ i, app'.selected = some i ∧ i < bs.length) := by
  constructor
  · intro app app' op hstep hsome
    cases op
    case next =>
      cases hstep
      simp [App.next]
    case previous =>
      cases hstep
      simp [App.previous]
    case next_page =>
      cases hstep
      simp [App.next_page]
    case prev_page =>
      cases hstep
      simp [App.prev_page]
    case quit =>
      cases hstep
      simpa using hsome
    case confirm =>
      rcases h : app.selected with _ | i
      · rw [h] at hsome
        simp at hsome
      · rcases hg : app.branches[i]? with _ | b
        · simp [step, App.confirm, h, hg] at hstep
        · simp only [step, App.confirm, h, hg] at hstep
          cases hstep
          simp
  · intro bs ps ops hlen
    obtain ⟨app', happ, _, i, hs, hi⟩ :=
      applyOps_preserves bs hlen ops (initialApp bs ps)
        (initialApp_inv bs ps hlen)
    exact ⟨app', happ, i, hs, hi⟩

/-- Witness for C10 on a concrete two-branch listing with a `move_next`
followed by a `confirm`. -/
theorem cursor_stays_set_witness :
    ∃ app', applyOps (initialApp [sampleBranchA, sampleBranchB] 1)
        [Op.next, Op.confirm] = some app' ∧
      ∃ i, app'.selected = some i ∧
        i < ([sampleBranchA, sampleBranchB] : List BranchInfo).length :=
  cursor_stays_set_and_in_range.2 [sampleBranchA, sampleBranchB] 1
    [Op.next, Op.confirm] (by decide)

/-! ## Claims about the BranchDataSource -/

lemma branchLe_trans (a b c : BranchInfo) (hab : branchLe a b = true)
    (hbc : branchLe b c = true) : branchLe a c = true := by
  simp only [branchLe, decide_eq_true_eq] at *
  omega

lemma branchLe_total (a b : BranchInfo) :
    (branchLe a b || branchLe b a) = true := by
  simp only [branchLe, Bool.or_eq_true, decide_eq_true_eq]
  omega

lemma core_pairwise (pr_map : String → Option Nat) (lines : List String) :
    (get_branch_info_core pr_map lines).Pairwise
      (fun a b => b.last_commit_timestamp ≤ a.last_commit_timestamp) := by
  unfold get_branch_info_core
  exact (List.sorted_mergeSort branchLe_trans branchLe_total
    (lines.filterMap (parseLine pr_map))).imp
    (fun hab => by simpa [branchLe] using hab)

lemma core_perm (pr_map : String → Option Nat) (lines : List String) :
    (get_branch_info_core pr_map lines).Perm
      (lines.filterMap (parseLine pr_map)) :=
  List.mergeSort_perm _ branchLe

lemma core_filter_fixed_ts (pr_map : String → Option Nat)
    (lines : List String) (t : Int) :
    (get_branch_info_core pr_map lines).filter
        (fun r => r.last_commit_timestamp == t) =
      (lines.filterMap (parseLine pr_map)).filter
        (fun r => r.last_commit_timestamp == t) := by
  unfold get_branch_info_core
  set p : BranchInfo → Bool := fun r => r.last_commit_timestamp == t with hp
  set l := lines.filterMap (parseLine pr_map) with hl
  have hmem : ∀ a ∈ l.filter p, a.last_commit_timestamp = t := by
    intro a ha
    simpa [hp] using List.of_mem_filter ha
  have hpw : (l.filter p).Pairwise (fun a b => branchLe a b = true) := by
    refine List.pairwise_of_forall_mem_list ?_
    intro a ha b hb
    simp [branchLe, hmem a ha, hmem b hb]
  have hsub : (l.filter p).Sublist (l.mergeSort branchLe) :=
    List.sublist_mergeSort branchLe_trans branchLe_total hpw
      (List.filter_sublist l)
  have hself : (l.filter p).filter p = l.filter p := by
    rw [List.filter_eq_self]
    intro a ha
    exact List.of_mem_filter ha
  have hsub2 : (l.filter p).Sublist ((l.mergeSort branchLe).filter p) := by
    rw [← hself]
    exact hsub.filter p
  have hlen : ((l.mergeSort branchLe).filter p).length = (l.filter p).length :=
    ((List.mergeSort_perm l branchLe).filter p).length_eq
  exact (hsub2.eq_of_length hlen.symm).symm

lemma parseLine_isSome_iff (pr_map : String → Option Nat) (line : String) :
    (parseLine pr_map line).isSome = true ↔
      (splitOnChar DELIMITER line).length = 6 := by
  unfold parseLine
  rcases h : splitOnChar DELIMITER line with
    _ | ⟨p0, _ | ⟨p1, _ | ⟨p2, _ | ⟨p3, _ | ⟨p4, _ | ⟨p5, _ | ⟨p6, rest⟩⟩⟩⟩⟩⟩⟩ <;>
    simp

/-- C5: the listing produced by the fetch core is sorted by
`last_commit_epoch` descending, and the sort is stable: for every
timestamp value, the records carrying it appear in exactly the relative
order in which the raw tool output produced them. -/
theorem listing_sorted_stable (pr_map : String → Option Nat)
    (lines : List String) :
    ((get_branch_info_core pr_map lines).Pairwise
      fun a b => b.last_commit_timestamp ≤ a.last_commit_timestamp) ∧
    ∀ t : Int,
      (get_branch_info_core pr_map lines).filter
          (fun r => r.last_commit_timestamp == t) =
        (lines.filterMap (parseLine pr_map)).filter
          (fun r => r.last_commit_timestamp == t) :=
  ⟨core_pairwise pr_map lines, fun t => core_filter_fixed_ts pr_map lines t⟩

/-- C6: the fetched listing consists exactly of the records of the parsed
lines (a permutation — the sort — of the line-wise `filterMap`), and a
line yields a record exactly when it splits into six delimiter-separated
fields; anything else contributes nothing. -/
theorem six_field_lines (pr_map : String → Option Nat) (lines : List String) :
    (get_branch_info_core pr_map lines).Perm
      (lines.filterMap (parseLine pr_map)) ∧
    ∀ line : String,
      (parseLine pr_map line).isSome = true ↔
        (splitOnChar DELIMITER line).length = 6 :=
  ⟨core_perm pr_map lines, fun line => parseLine_isSome_iff pr_map line⟩

/-- C7: a six-field line whose fifth field does not parse as a signed
64-bit integer yields a record with `last_commit_epoch = 0`; the fetch
still succeeds (a record is produced, and a zero-exit fetch returns `Ok`);
and under the descending sort no record with a positive timestamp ever
follows a zero-timestamp record, so defaulted records sit at the end. -/
theorem unparsable_epoch_defaults :
    (∀ (pr_map : String → Option Nat) (line : String)
        (p0 p1 p2 p3 p4 p5 : String),
        splitOnChar DELIMITER line = [p0, p1, p2, p3, p4, p5] →
        parseI64 p4 = none →
        ∃ r, parseLine pr_map line = some r ∧ r.last_commit_timestamp = 0) ∧
    (∀ (parsePrs : String → Option (List PullRequest)) (prEnv : PrEnv)
        (gitOut : CmdOutput), gitOut.success = true →
        ∃ l, get_branch_info parsePrs prEnv gitOut = Except.ok l) ∧
    (∀ (pr_map : String → Option Nat) (lines : List String),
      (get_branch_info_core pr_map lines).Pairwise
        fun a b => a.last_commit_timestamp = 0 →
          b.last_commit_timestamp ≤ 0) := by
  refine ⟨?_, ?_, ?_⟩
  · intro pr_map line p0 p1 p2 p3 p4 p5 hsplit hparse
    refine ⟨_, by unfold parseLine; rw [hsplit], ?_⟩
    simp [hparse]
  · intro parsePrs prEnv gitOut hs
    exact ⟨get_branch_info_core
      (fun nm => (pr_map_observed parsePrs prEnv).reverse.lookup nm)
      (rustLines gitOut.stdout), by simp [get_branch_info, hs]⟩
  · intro pr_map lines
    exact (core_pairwise pr_map lines).imp
      (fun hab ha => by rw [ha] at hab; exact hab)

/-- Witness for C7: a concrete six-field line with unparsable fifth field
yields a record with timestamp `0`. -/
theorem unparsable_epoch_witness :
    ∃ r, parseLine (fun _ => none) "a|b|c|d|xx|f" = some r ∧
      r.last_commit_timestamp = 0 :=
  unparsable_epoch_defaults.1 (fun _ => none) "a|b|c|d|xx|f"
    "a" "b" "c" "d" "xx" "f" (by decide) (by decide)

/-- C8: every failure mode of the PR lookup — `gh` not installed, the list
command failing to spawn, a non-zero exit, or unparsable JSON — is
observed by `get_branch_info` as the empty mapping, never as an error. -/
theorem pr_failures_degrade_to_empty
    (parsePrs : String → Option (List PullRequest)) (env : PrEnv)
    (hfail : env.ghVersion = none ∨ env.ghPrList = none ∨
      ∃ o, env.ghPrList = some o ∧
        (o.success = false ∨ parsePrs o.stdout = none)) :
    pr_map_observed parsePrs env = [] := by
  obtain ⟨gv, gl⟩ := env
  rcases gv with _ | v
  · rfl
  · rcases gl with _ | o
    · rfl
    · rcases hfail with h | h | ⟨o', ho, h⟩
      · exact Option.noConfusion h
      · exact Option.noConfusion h
      · cases Option.some.inj ho
        rcases h with hs | hparse
        · simp [pr_map_observed, get_pr_map, hs]
        · cases hsucc : o.success
          · simp [pr_map_observed, get_pr_map, hsucc]
          · simp [pr_map_observed, get_pr_map, hsucc, hparse]

/-- Witness for C8 with `gh` absent entirely. -/
theorem pr_failures_witness :
    pr_map_observed (fun _ => none) ⟨none, none⟩ = [] :=
  pr_failures_degrade_to_empty (fun _ => none) ⟨none, none⟩ (Or.inl rfl)

/-- C9: the fetch returns an error exactly when the ref-listing process
exits non-zero; that error carries the process's standard-error text; and
a zero exit with no stdout lines yields a successful empty listing. -/
theorem fetch_error_iff_nonzero_exit
    (parsePrs : String → Option (List PullRequest)) (prEnv : PrEnv)
    (gitOut : CmdOutput) :
    ((∃ e, get_branch_info parsePrs prEnv gitOut = Except.error e) ↔
      gitOut.success = false) ∧
    (gitOut.success = false →
      get_branch_info parsePrs prEnv gitOut = Except.error gitOut.stderr) ∧
    (gitOut.success = true → rustLines gitOut.stdout = [] →
      get_branch_info parsePrs prEnv gitOut = Except.ok []) := by
  refine ⟨⟨?_, ?_⟩, ?_, ?_⟩
  · rintro ⟨e, he⟩
    cases hs : gitOut.success
    · rfl
    · simp [get_branch_info, hs] at he
  · intro hs
    exact ⟨gitOut.stderr, by simp [get_branch_info, hs]⟩
  · intro hs
    simp [get_branch_info, hs]
  · intro hs hlines
    simp [get_branch_info, hs, hlines, get_branch_info_core]

/-- Witness for C9: a non-zero exit with captured stderr text fails with
exactly that text; a zero exit with empty stdout yields the empty
listing. -/
theorem fetch_error_witness :
    get_branch_info (fun _ => none) ⟨none, none⟩
        ⟨false, "", "fatal: not a git repository"⟩ =
      Except.error "fatal: not a git repository" ∧
    get_branch_info (fun _ => none) ⟨none, none⟩ ⟨true, "", ""⟩ =
      Except.ok [] :=
  ⟨(fetch_error_iff_nonzero_exit (fun _ => none) ⟨none, none⟩
      ⟨false, "", "fatal: not a git repository"⟩).2.1 rfl,
   (fetch_error_iff_nonzero_exit (fun _ => none) ⟨none, none⟩
      ⟨true, "", ""⟩).2.2 rfl (by decide)⟩

end GitCheckoutUI
